import Mathlib

/-!
Verification of `onlyoffice/file.go` from ONLYOFFICE/onlyoffice-integration-adapters.

Strings are embedded as lists of Unicode code points (`List Nat`); the four
extension maps are association lists with unique keys, matching Go's
`map[string]string` literals entry for entry.  `strings.ToLower` is embedded as
per-code-point ASCII lowercasing (all map keys are ASCII).  Fallible
operations return an `Option GoError`, with `none` playing the role of Go's
`nil` error.
-/

/-- A Go string, as its sequence of code points. -/
abbrev Str := List Nat

/-- Convert a Lean string literal to the embedded representation. -/
def s2l (s : String) : Str := s.data.map Char.toNat

/-- Code point of the dot character. -/
def dotChar : Nat := 46

/-- Code point of the forward-slash character (the path separator used by
`filepath.Ext` on Unix). -/
def slashChar : Nat := 47

/-- Code point of the backslash character. -/
def backslashChar : Nat := 92

/-- Code point of the colon character. -/
def colonChar : Nat := 58

/-- Code point of the plus sign. -/
def plusChar : Nat := 43

/-- Code point of the minus sign. -/
def minusChar : Nat := 45

/-- ASCII lowercasing of one code point (embeds `strings.ToLower` per rune;
every key in the extension maps is ASCII). -/
def lowerChar (c : Nat) : Nat := if 65 ≤ c ∧ c ≤ 90 then c + 32 else c

/-- Embeds `strings.ToLower`. -/
def toLower (s : Str) : Str := s.map lowerChar

/-- The two error values declared in the `var` block of `file.go`. -/
inductive GoError where
  | extensionNotSupported
  | invalidContentLength
  deriving DecidableEq, Repr

/-- `_OnlyofficeWordType` -/
def OnlyofficeWordType : String := "word"

/-- `_OnlyofficeCellType` -/
def OnlyofficeCellType : String := "cell"

/-- `_OnlyofficeSlideType` -/
def OnlyofficeSlideType : String := "slide"

/-- `OnlyofficeEditableExtensions` from `file.go`. -/
def OnlyofficeEditableExtensions : List (Str × String) := [
  (s2l "docm", OnlyofficeWordType),
  (s2l "docx", OnlyofficeWordType),
  (s2l "docxf", OnlyofficeWordType),
  (s2l "oform", OnlyofficeWordType),
  (s2l "dotm", OnlyofficeWordType),
  (s2l "dotx", OnlyofficeWordType),
  (s2l "xlsm", OnlyofficeCellType),
  (s2l "xlsx", OnlyofficeCellType),
  (s2l "xltm", OnlyofficeCellType),
  (s2l "xltx", OnlyofficeCellType),
  (s2l "potm", OnlyofficeSlideType),
  (s2l "potx", OnlyofficeSlideType),
  (s2l "ppsm", OnlyofficeSlideType),
  (s2l "ppsx", OnlyofficeSlideType),
  (s2l "pptm", OnlyofficeSlideType),
  (s2l "pptx", OnlyofficeSlideType)]

/-- `OnlyofficeOOXMLEditableExtensions` from `file.go`. -/
def OnlyofficeOOXMLEditableExtensions : List (Str × String) := [
  (s2l "doc", OnlyofficeWordType),
  (s2l "dot", OnlyofficeWordType),
  (s2l "fodt", OnlyofficeWordType),
  (s2l "mht", OnlyofficeWordType),
  (s2l "xml", OnlyofficeWordType),
  (s2l "sxw", OnlyofficeWordType),
  (s2l "stw", OnlyofficeWordType),
  (s2l "htm", OnlyofficeWordType),
  (s2l "mhtml", OnlyofficeWordType),
  (s2l "wps", OnlyofficeWordType),
  (s2l "wpt", OnlyofficeWordType),
  (s2l "fods", OnlyofficeCellType),
  (s2l "xls", OnlyofficeCellType),
  (s2l "xlt", OnlyofficeCellType),
  (s2l "sxc", OnlyofficeCellType),
  (s2l "et", OnlyofficeCellType),
  (s2l "ett", OnlyofficeCellType),
  (s2l "xlsb", OnlyofficeCellType),
  (s2l "fodp", OnlyofficeSlideType),
  (s2l "pot", OnlyofficeSlideType),
  (s2l "pps", OnlyofficeSlideType),
  (s2l "ppt", OnlyofficeSlideType),
  (s2l "sxi", OnlyofficeSlideType),
  (s2l "dps", OnlyofficeSlideType),
  (s2l "dpt", OnlyofficeSlideType)]

/-- `OnlyofficeDataLossEditableExtensions` from `file.go`. -/
def OnlyofficeDataLossEditableExtensions : List (Str × String) := [
  (s2l "epub", OnlyofficeWordType),
  (s2l "fb2", OnlyofficeWordType),
  (s2l "html", OnlyofficeWordType),
  (s2l "odt", OnlyofficeWordType),
  (s2l "ott", OnlyofficeWordType),
  (s2l "rtf", OnlyofficeWordType),
  (s2l "txt", OnlyofficeWordType),
  (s2l "csv", OnlyofficeCellType),
  (s2l "ods", OnlyofficeCellType),
  (s2l "ots", OnlyofficeCellType),
  (s2l "odp", OnlyofficeSlideType),
  (s2l "otp", OnlyofficeSlideType)]

/-- `OnlyofficeViewOnlyExtensions` from `file.go`. -/
def OnlyofficeViewOnlyExtensions : List (Str × String) := [
  (s2l "djvu", OnlyofficeWordType),
  (s2l "oxps", OnlyofficeWordType),
  (s2l "pdf", OnlyofficeWordType),
  (s2l "xps", OnlyofficeWordType)]

/-- The mutable global state of the package: the four extension maps
(declared with `var` in Go, so in principle writable).  Every operation is
embedded as a reader of this state so that frame properties can be stated. -/
structure ExtensionMaps where
  editable : List (Str × String)
  ooxml : List (Str × String)
  dataLoss : List (Str × String)
  viewOnly : List (Str × String)
  deriving DecidableEq

/-- The state holding the four map literals of `file.go`. -/
def globalMaps : ExtensionMaps :=
  ⟨OnlyofficeEditableExtensions, OnlyofficeOOXMLEditableExtensions,
   OnlyofficeDataLossEditableExtensions, OnlyofficeViewOnlyExtensions⟩

/-- Body of `fileUtility.IsExtensionEditable`, over an explicit map state. -/
def isExtensionEditableT (m : ExtensionMaps) (fileExt : Str) : Bool :=
  (List.lookup (toLower fileExt) m.editable).isSome

/-- Body of `fileUtility.IsExtensionViewOnly`, over an explicit map state. -/
def isExtensionViewOnlyT (m : ExtensionMaps) (fileExt : Str) : Bool :=
  (List.lookup (toLower fileExt) m.viewOnly).isSome

/-- Body of `fileUtility.IsExtensionLossEditable`, over an explicit map state. -/
def isExtensionLossEditableT (m : ExtensionMaps) (fileExt : Str) : Bool :=
  (List.lookup (toLower fileExt) m.dataLoss).isSome

/-- Body of `fileUtility.IsExtensionOOXMLConvertable`, over an explicit map state. -/
def isExtensionOOXMLConvertableT (m : ExtensionMaps) (fileExt : Str) : Bool :=
  (List.lookup (toLower fileExt) m.ooxml).isSome

/-- Body of `fileUtility.IsExtensionSupported`, over an explicit map state;
the maps are consulted in the source's order: data-loss, editable, OOXML,
view-only, with early returns. -/
def isExtensionSupportedT (m : ExtensionMaps) (fileExt : Str) : Bool :=
  let ext := toLower fileExt
  if (List.lookup ext m.dataLoss).isSome then true
  else if (List.lookup ext m.editable).isSome then true
  else if (List.lookup ext m.ooxml).isSome then true
  else if (List.lookup ext m.viewOnly).isSome then true
  else false

/-- Body of `fileUtility.GetFileType`, over an explicit map state; the maps
are consulted in the source's order: editable, data-loss, OOXML, view-only.
Returns the `(string, error)` pair of the Go function. -/
def getFileTypeT (m : ExtensionMaps) (fileExt : Str) : String × Option GoError :=
  let ext := toLower fileExt
  match List.lookup ext m.editable with
  | some fType => (fType, none)
  | none =>
    match List.lookup ext m.dataLoss with
    | some fType => (fType, none)
    | none =>
      match List.lookup ext m.ooxml with
      | some fType => (fType, none)
      | none =>
        match List.lookup ext m.viewOnly with
        | some fType => (fType, none)
        | none => ("", some GoError.extensionNotSupported)

/-- `fileUtility.IsExtensionEditable`. -/
def IsExtensionEditable (fileExt : Str) : Bool := isExtensionEditableT globalMaps fileExt

/-- `fileUtility.IsExtensionViewOnly`. -/
def IsExtensionViewOnly (fileExt : Str) : Bool := isExtensionViewOnlyT globalMaps fileExt

/-- `fileUtility.IsExtensionLossEditable`. -/
def IsExtensionLossEditable (fileExt : Str) : Bool := isExtensionLossEditableT globalMaps fileExt

/-- `fileUtility.IsExtensionOOXMLConvertable`. -/
def IsExtensionOOXMLConvertable (fileExt : Str) : Bool := isExtensionOOXMLConvertableT globalMaps fileExt

/-- `fileUtility.IsExtensionSupported`. -/
def IsExtensionSupported (fileExt : Str) : Bool := isExtensionSupportedT globalMaps fileExt

/-- `fileUtility.GetFileType`. -/
def GetFileType (fileExt : Str) : String × Option GoError := getFileTypeT globalMaps fileExt

/-- `strings.ReplaceAll s old new` for a single-code-point `old` and `new`:
replaces every occurrence of `a` by `b`. -/
def replaceAllChar (s : Str) (a b : Nat) : Str := s.map fun c => if c = a then b else c

/-- `strings.ReplaceAll s old ""` for a single-code-point `old`: removes every
occurrence of `a`. -/
def removeAllChar (s : Str) (a : Nat) : Str := s.filter fun c => c ≠ a

/-- `fileUtility.EscapeFilename`: replaces `\` with `:`, then `/` with `:`. -/
def EscapeFilename (filename : Str) : Str :=
  replaceAllChar (replaceAllChar filename backslashChar colonChar) slashChar colonChar

/-- Helper for `filepath.Ext`: walks the reversed path, accumulating the
characters seen so far; stops at a path separator, returns the suffix from the
last dot when a dot is found. -/
def extAux : Str → Str → Str
  | [], _ => []
  | c :: rest, acc =>
    if c = slashChar then []
    else if c = dotChar then dotChar :: acc
    else extAux rest (c :: acc)

/-- `filepath.Ext` (Unix path separator): the suffix of `path` beginning at
the final dot in the final path element, or empty when there is no dot. -/
def filepathExt (path : Str) : Str := extAux path.reverse []

/-- `strings.TrimSuffix`: cuts the suffix when present, identity otherwise. -/
def trimSuffix (s suff : Str) : Str :=
  if suff.isSuffixOf s then s.take (s.length - suff.length) else s

/-- `fileUtility.GetFilenameWithoutExtension`. -/
def GetFilenameWithoutExtension (filename : Str) : Str :=
  trimSuffix filename (filepathExt filename)

/-- `fileUtility.GetFileExt`: `strings.ReplaceAll(filepath.Ext(filename), ".", "")`. -/
def GetFileExt (filename : Str) : Str :=
  removeAllChar (filepathExt filename) dotChar

/-- Parse a nonempty all-digit string in base 10 (helper for `strconv.ParseInt`). -/
def parseDigitsAux : Str → Nat → Option Nat
  | [], acc => some acc
  | c :: rest, acc =>
    if 48 ≤ c ∧ c ≤ 57 then parseDigitsAux rest (acc * 10 + (c - 48)) else none

/-- Digits of a base-10 numeral, `none` on the empty string or a non-digit. -/
def parseDigits : Str → Option Nat
  | [] => none
  | l => parseDigitsAux l 0

/-- Signed magnitude step of `strconv.ParseInt`: parse the digits, apply the
sign, reject values outside the 64-bit range. -/
def goParseIntMag (neg : Bool) (digits : Str) : Option Int :=
  match parseDigits digits with
  | none => none
  | some n =>
    let v : Int := if neg then -(n : Int) else (n : Int)
    if -(2 ^ 63) ≤ v ∧ v ≤ 2 ^ 63 - 1 then some v else none

/-- `strconv.ParseInt s 10 0` (64-bit `int`): optional sign, then a nonempty
run of decimal digits, `none` on a syntax or range error. -/
def goParseInt (s : Str) : Option Int :=
  match s with
  | c :: rest =>
    if c = plusChar then goParseIntMag false rest
    else if c = minusChar then goParseIntMag true rest
    else goParseIntMag false s
  | [] => none

/-- The observable part of a successful HTTP HEAD response: the value that
`resp.Header.Get "Content-Length"` yields (the empty string when the header
is missing). -/
structure HeadResponse where
  contentLength : Str
  deriving DecidableEq

/-- `fileUtility.ValidateFileSize`, with the HEAD response modelled as an
input (the request-failed branch returns that transport error and is outside
this model).  Go evaluates `val > limit || err != nil`, so a parse error
dominates the clamped value `strconv` returns alongside it. -/
def ValidateFileSize (limit : Int) (resp : HeadResponse) : Option GoError :=
  match goParseInt resp.contentLength with
  | some val => if val > limit then some GoError.invalidContentLength else none
  | none => some GoError.invalidContentLength

/-- Boolean check that no key of `a` is a key of `b`. -/
def disjointMaps (a b : List (Str × String)) : Bool :=
  a.all fun p => (List.lookup p.1 b).isNone

/-- Order-variant of `getFileTypeT`, consulting the four maps in the exact
reverse of the source's order (view-only, OOXML, data-loss, editable); used
only to state that the result of `GetFileType` does not depend on the
consultation order. -/
def getFileTypeRevT (m : ExtensionMaps) (fileExt : Str) : String × Option GoError :=
  let ext := toLower fileExt
  match List.lookup ext m.viewOnly with
  | some fType => (fType, none)
  | none =>
    match List.lookup ext m.ooxml with
    | some fType => (fType, none)
    | none =>
      match List.lookup ext m.dataLoss with
      | some fType => (fType, none)
      | none =>
        match List.lookup ext m.editable with
        | some fType => (fType, none)
        | none => ("", some GoError.extensionNotSupported)

/-- The per-code-point substitution described by the spec for
`EscapeFilename`: backslash and forward slash become a colon, everything
else is unchanged. -/
def escCharSpec (c : Nat) : Nat :=
  if c = backslashChar ∨ c = slashChar then colonChar else c

/-- `IsExtensionEditable` as a call on the package state: reads the maps,
never writes them. -/
def isExtensionEditableCall (m : ExtensionMaps) (e : Str) : ExtensionMaps × Bool :=
  (m, isExtensionEditableT m e)

/-- `IsExtensionViewOnly` as a call on the package state. -/
def isExtensionViewOnlyCall (m : ExtensionMaps) (e : Str) : ExtensionMaps × Bool :=
  (m, isExtensionViewOnlyT m e)

/-- `IsExtensionLossEditable` as a call on the package state. -/
def isExtensionLossEditableCall (m : ExtensionMaps) (e : Str) : ExtensionMaps × Bool :=
  (m, isExtensionLossEditableT m e)

/-- `IsExtensionOOXMLConvertable` as a call on the package state. -/
def isExtensionOOXMLConvertableCall (m : ExtensionMaps) (e : Str) : ExtensionMaps × Bool :=
  (m, isExtensionOOXMLConvertableT m e)

/-- `IsExtensionSupported` as a call on the package state. -/
def isExtensionSupportedCall (m : ExtensionMaps) (e : Str) : ExtensionMaps × Bool :=
  (m, isExtensionSupportedT m e)

/-- `GetFileType` as a call on the package state. -/
def getFileTypeCall (m : ExtensionMaps) (e : Str) : ExtensionMaps × (String × Option GoError) :=
  (m, getFileTypeT m e)

/-- `EscapeFilename` as a call on the package state (it does not read the maps). -/
def escapeFilenameCall (m : ExtensionMaps) (e : Str) : ExtensionMaps × Str :=
  (m, EscapeFilename e)

/-- `GetFilenameWithoutExtension` as a call on the package state. -/
def getFilenameWithoutExtensionCall (m : ExtensionMaps) (e : Str) : ExtensionMaps × Str :=
  (m, GetFilenameWithoutExtension e)

/-- `GetFileExt` as a call on the package state. -/
def getFileExtCall (m : ExtensionMaps) (e : Str) : ExtensionMaps × Str :=
  (m, GetFileExt e)

/-- `ValidateFileSize` as a call on the package state, the HEAD response
being an input. -/
def validateFileSizeCall (m : ExtensionMaps) (limit : Int) (resp : HeadResponse) :
    ExtensionMaps × Option GoError :=
  (m, ValidateFileSize limit resp)

theorem lowerChar_idem (c : Nat) : lowerChar (lowerChar c) = lowerChar c := by
  simp only [lowerChar]
  split
  · rw [if_neg (by omega)]
  · rfl

theorem toLower_idem (s : Str) : toLower (toLower s) = toLower s := by
  simp only [toLower, List.map_map]
  exact List.map_congr_left fun c _ => lowerChar_idem c

theorem lookup_some_mem : ∀ {l : List (Str × String)} {k : Str} {t : String},
    List.lookup k l = some t → (k, t) ∈ l := by
  intro l
  induction l with
  | nil => intro k t h; simp [List.lookup] at h
  | cons p rest ih =>
    intro k t h
    obtain ⟨a, b⟩ := p
    cases hbeq : k == a with
    | true =>
      simp [List.lookup, hbeq] at h
      subst h
      rw [eq_of_beq hbeq]
      exact List.mem_cons_self _ _
    | false =>
      simp only [List.lookup, hbeq] at h
      exact List.mem_cons_of_mem _ (ih h)

theorem lookup_isSome_iff : ∀ {l : List (Str × String)} {k : Str},
    (List.lookup k l).isSome = true ↔ k ∈ l.map Prod.fst := by
  intro l
  induction l with
  | nil => intro k; simp [List.lookup]
  | cons p rest ih =>
    intro k
    obtain ⟨a, b⟩ := p
    cases hbeq : k == a with
    | true =>
      have : k = a := eq_of_beq hbeq
      simp [List.lookup, hbeq, this]
    | false =>
      have : ¬ k = a := fun h => by simp [h] at hbeq
      simp [List.lookup, hbeq, this, ih]

theorem disjoint_lookup {a b : List (Str × String)} (hd : disjointMaps a b = true)
    {k : Str} {t : String} (h : List.lookup k a = some t) : List.lookup k b = none := by
  have hm := lookup_some_mem h
  have hall := List.all_eq_true.mp hd _ hm
  simpa [Option.isNone_iff_eq_none] using hall

theorem editable_values : ∀ p ∈ OnlyofficeEditableExtensions,
    p.2 = OnlyofficeWordType ∨ p.2 = OnlyofficeCellType ∨ p.2 = OnlyofficeSlideType := by
  decide

theorem ooxml_values : ∀ p ∈ OnlyofficeOOXMLEditableExtensions,
    p.2 = OnlyofficeWordType ∨ p.2 = OnlyofficeCellType ∨ p.2 = OnlyofficeSlideType := by
  decide

theorem dataLoss_values : ∀ p ∈ OnlyofficeDataLossEditableExtensions,
    p.2 = OnlyofficeWordType ∨ p.2 = OnlyofficeCellType ∨ p.2 = OnlyofficeSlideType := by
  decide

theorem viewOnly_values : ∀ p ∈ OnlyofficeViewOnlyExtensions,
    p.2 = OnlyofficeWordType ∨ p.2 = OnlyofficeCellType ∨ p.2 = OnlyofficeSlideType := by
  decide

theorem disj_ed_ooxml :
    disjointMaps OnlyofficeEditableExtensions OnlyofficeOOXMLEditableExtensions = true := by decide

theorem disj_ed_loss :
    disjointMaps OnlyofficeEditableExtensions OnlyofficeDataLossEditableExtensions = true := by decide

theorem disj_ed_view :
    disjointMaps OnlyofficeEditableExtensions OnlyofficeViewOnlyExtensions = true := by decide

theorem disj_ooxml_loss :
    disjointMaps OnlyofficeOOXMLEditableExtensions OnlyofficeDataLossEditableExtensions = true := by decide

theorem disj_ooxml_view :
    disjointMaps OnlyofficeOOXMLEditableExtensions OnlyofficeViewOnlyExtensions = true := by decide

theorem disj_loss_view :
    disjointMaps OnlyofficeDataLossEditableExtensions OnlyofficeViewOnlyExtensions = true := by decide

theorem lookup_atMostOne (k : Str) :
    (List.lookup k OnlyofficeEditableExtensions = none ∧
      List.lookup k OnlyofficeOOXMLEditableExtensions = none ∧
      List.lookup k OnlyofficeDataLossEditableExtensions = none ∧
      List.lookup k OnlyofficeViewOnlyExtensions = none) ∨
    (∃ t, List.lookup k OnlyofficeEditableExtensions = some t ∧
      List.lookup k OnlyofficeOOXMLEditableExtensions = none ∧
      List.lookup k OnlyofficeDataLossEditableExtensions = none ∧
      List.lookup k OnlyofficeViewOnlyExtensions = none) ∨
    (∃ t, List.lookup k OnlyofficeEditableExtensions = none ∧
      List.lookup k OnlyofficeOOXMLEditableExtensions = some t ∧
      List.lookup k OnlyofficeDataLossEditableExtensions = none ∧
      List.lookup k OnlyofficeViewOnlyExtensions = none) ∨
    (∃ t, List.lookup k OnlyofficeEditableExtensions = none ∧
      List.lookup k OnlyofficeOOXMLEditableExtensions = none ∧
      List.lookup k OnlyofficeDataLossEditableExtensions = some t ∧
      List.lookup k OnlyofficeViewOnlyExtensions = none) ∨
    (∃ t, List.lookup k OnlyofficeEditableExtensions = none ∧
      List.lookup k OnlyofficeOOXMLEditableExtensions = none ∧
      List.lookup k OnlyofficeDataLossEditableExtensions = none ∧
      List.lookup k OnlyofficeViewOnlyExtensions = some t) := by
  cases h1 : List.lookup k OnlyofficeEditableExtensions with
  | some t1 =>
    exact Or.inr (Or.inl ⟨t1, rfl, disjoint_lookup disj_ed_ooxml h1,
      disjoint_lookup disj_ed_loss h1, disjoint_lookup disj_ed_view h1⟩)
  | none =>
    cases h2 : List.lookup k OnlyofficeOOXMLEditableExtensions with
    | some t2 =>
      exact Or.inr (Or.inr (Or.inl ⟨t2, rfl, rfl, disjoint_lookup disj_ooxml_loss h2,
        disjoint_lookup disj_ooxml_view h2⟩))
    | none =>
      cases h3 : List.lookup k OnlyofficeDataLossEditableExtensions with
      | some t3 =>
        exact Or.inr (Or.inr (Or.inr (Or.inl ⟨t3, rfl, rfl, rfl,
          disjoint_lookup disj_loss_view h3⟩)))
      | none =>
        cases h4 : List.lookup k OnlyofficeViewOnlyExtensions with
        | some t4 => exact Or.inr (Or.inr (Or.inr (Or.inr ⟨t4, rfl, rfl, rfl, rfl⟩)))
        | none => exact Or.inl ⟨rfl, rfl, rfl, rfl⟩

theorem escCharSpec_eq_composite (c : Nat) :
    (if (if c = backslashChar then colonChar else c) = slashChar then colonChar
      else if c = backslashChar then colonChar else c) = escCharSpec c := by
  simp only [escCharSpec, backslashChar, slashChar, colonChar]
  by_cases h1 : c = 92 <;> by_cases h2 : c = 47 <;> simp [h1, h2]

theorem escapeFilename_eq_map (s : Str) : EscapeFilename s = s.map escCharSpec := by
  simp only [EscapeFilename, replaceAllChar, List.map_map]
  refine List.map_congr_left fun c _ => ?_
  simpa [Function.comp] using escCharSpec_eq_composite c

theorem escCharSpec_not_sep (c : Nat) :
    escCharSpec c ≠ slashChar ∧ escCharSpec c ≠ backslashChar := by
  simp only [escCharSpec, backslashChar, slashChar, colonChar]
  by_cases h1 : c = 92 <;> by_cases h2 : c = 47 <;> simp [h1, h2]

theorem escCharSpec_idem (c : Nat) : escCharSpec (escCharSpec c) = escCharSpec c := by
  simp only [escCharSpec, backslashChar, slashChar, colonChar]
  by_cases h1 : c = 92 <;> by_cases h2 : c = 47 <;> simp [h1, h2]

/-- C5: in each of the four extension maps every key equals its own
lowercase form, the keys are distinct within the map, and every value is one
of the three categories "word", "cell", "slide". -/
theorem extension_maps_wellformed :
    ((∀ p ∈ OnlyofficeEditableExtensions, toLower p.1 = p.1) ∧
      (OnlyofficeEditableExtensions.map Prod.fst).Nodup ∧
      ∀ p ∈ OnlyofficeEditableExtensions,
        p.2 = "word" ∨ p.2 = "cell" ∨ p.2 = "slide") ∧
    ((∀ p ∈ OnlyofficeOOXMLEditableExtensions, toLower p.1 = p.1) ∧
      (OnlyofficeOOXMLEditableExtensions.map Prod.fst).Nodup ∧
      ∀ p ∈ OnlyofficeOOXMLEditableExtensions,
        p.2 = "word" ∨ p.2 = "cell" ∨ p.2 = "slide") ∧
    ((∀ p ∈ OnlyofficeDataLossEditableExtensions, toLower p.1 = p.1) ∧
      (OnlyofficeDataLossEditableExtensions.map Prod.fst).Nodup ∧
      ∀ p ∈ OnlyofficeDataLossEditableExtensions,
        p.2 = "word" ∨ p.2 = "cell" ∨ p.2 = "slide") ∧
    ((∀ p ∈ OnlyofficeViewOnlyExtensions, toLower p.1 = p.1) ∧
      (OnlyofficeViewOnlyExtensions.map Prod.fst).Nodup ∧
      ∀ p ∈ OnlyofficeViewOnlyExtensions,
        p.2 = "word" ∨ p.2 = "cell" ∨ p.2 = "slide") := by
  decide

/-- C3: each of the four membership predicates holds exactly when the
lowercased extension is a key of its map: `IsExtensionEditable` checks
`OnlyofficeEditableExtensions`, `IsExtensionViewOnly` checks
`OnlyofficeViewOnlyExtensions`, `IsExtensionLossEditable` checks
`OnlyofficeDataLossEditableExtensions`, `IsExtensionOOXMLConvertable`
checks `OnlyofficeOOXMLEditableExtensions`. -/
theorem predicates_iff_key_membership (e : Str) :
    (IsExtensionEditable e = true ↔
      toLower e ∈ OnlyofficeEditableExtensions.map Prod.fst) ∧
    (IsExtensionViewOnly e = true ↔
      toLower e ∈ OnlyofficeViewOnlyExtensions.map Prod.fst) ∧
    (IsExtensionLossEditable e = true ↔
      toLower e ∈ OnlyofficeDataLossEditableExtensions.map Prod.fst) ∧
    (IsExtensionOOXMLConvertable e = true ↔
      toLower e ∈ OnlyofficeOOXMLEditableExtensions.map Prod.fst) := by
  refine ⟨?_, ?_, ?_, ?_⟩ <;>
    simp [IsExtensionEditable, isExtensionEditableT, IsExtensionViewOnly,
      isExtensionViewOnlyT, IsExtensionLossEditable, isExtensionLossEditableT,
      IsExtensionOOXMLConvertable, isExtensionOOXMLConvertableT, globalMaps,
      lookup_isSome_iff]

/-- C2: `IsExtensionSupported` is the disjunction of the four per-map
predicates, and it holds exactly when `GetFileType` returns a nil error. -/
theorem isExtensionSupported_agrees (e : Str) :
    (IsExtensionSupported e =
      (IsExtensionEditable e || IsExtensionLossEditable e ||
        IsExtensionOOXMLConvertable e || IsExtensionViewOnly e)) ∧
    (IsExtensionSupported e = true ↔ (GetFileType e).2 = none) := by
  rcases lookup_atMostOne (toLower e) with
    ⟨h1, h2, h3, h4⟩ | ⟨t, h1, h2, h3, h4⟩ | ⟨t, h1, h2, h3, h4⟩ |
    ⟨t, h1, h2, h3, h4⟩ | ⟨t, h1, h2, h3, h4⟩ <;>
  simp [IsExtensionSupported, isExtensionSupportedT, IsExtensionEditable,
    isExtensionEditableT, IsExtensionViewOnly, isExtensionViewOnlyT,
    IsExtensionLossEditable, isExtensionLossEditableT, IsExtensionOOXMLConvertable,
    isExtensionOOXMLConvertableT, GetFileType, getFileTypeT, globalMaps,
    h1, h2, h3, h4]

/-- C4: the five classification predicates and `GetFileType` are
case-insensitive: each returns on `e` what it returns on `toLower e`. -/
theorem classification_case_insensitive (e : Str) :
    IsExtensionSupported (toLower e) = IsExtensionSupported e ∧
    IsExtensionEditable (toLower e) = IsExtensionEditable e ∧
    IsExtensionViewOnly (toLower e) = IsExtensionViewOnly e ∧
    IsExtensionLossEditable (toLower e) = IsExtensionLossEditable e ∧
    IsExtensionOOXMLConvertable (toLower e) = IsExtensionOOXMLConvertable e ∧
    GetFileType (toLower e) = GetFileType e := by
  simp [IsExtensionSupported, isExtensionSupportedT, IsExtensionEditable,
    isExtensionEditableT, IsExtensionViewOnly, isExtensionViewOnlyT,
    IsExtensionLossEditable, isExtensionLossEditableT, IsExtensionOOXMLConvertable,
    isExtensionOOXMLConvertableT, GetFileType, getFileTypeT, toLower_idem]

/-- C8: `EscapeFilename` replaces every backslash and every forward slash
with a colon and leaves all other code points unchanged; hence it preserves
length, its output contains no slash or backslash, it is idempotent, and it
maps the empty string to the empty string. -/
theorem escapeFilename_spec (s : Str) :
    EscapeFilename s = s.map escCharSpec ∧
    (EscapeFilename s).length = s.length ∧
    (∀ c ∈ EscapeFilename s, c ≠ slashChar ∧ c ≠ backslashChar) ∧
    EscapeFilename (EscapeFilename s) = EscapeFilename s ∧
    EscapeFilename [] = [] := by
  refine ⟨escapeFilename_eq_map s, ?_, ?_, ?_, rfl⟩
  · rw [escapeFilename_eq_map, List.length_map]
  · intro c hc
    rw [escapeFilename_eq_map] at hc
    obtain ⟨c₀, _, rfl⟩ := List.mem_map.mp hc
    exact escCharSpec_not_sep c₀
  · rw [escapeFilename_eq_map, escapeFilename_eq_map, List.map_map]
    exact List.map_congr_left fun c _ => by
      simpa [Function.comp] using escCharSpec_idem c

/-- Witness for C8: a colon, which is what every separator becomes in
`EscapeFilename (s2l "a/b")`, is neither a slash nor a backslash. -/
theorem escapeFilename_spec_witness :
    colonChar ≠ slashChar ∧ colonChar ≠ backslashChar :=
  (escapeFilename_spec (s2l "a/b")).2.2.1 colonChar (by decide)

/-- C9: every operation of the file utility leaves the extension-map state
unchanged, and repeating any call from the resulting state with the same
arguments yields the same result: the utility is mutation-free and (with the
HEAD response modelled as an input) deterministic. -/
theorem fileUtility_pure_frame (m : ExtensionMaps) (e : Str) (limit : Int)
    (resp : HeadResponse) :
    (isExtensionEditableCall m e).1 = m ∧
    (isExtensionViewOnlyCall m e).1 = m ∧
    (isExtensionLossEditableCall m e).1 = m ∧
    (isExtensionOOXMLConvertableCall m e).1 = m ∧
    (isExtensionSupportedCall m e).1 = m ∧
    (getFileTypeCall m e).1 = m ∧
    (escapeFilenameCall m e).1 = m ∧
    (getFilenameWithoutExtensionCall m e).1 = m ∧
    (getFileExtCall m e).1 = m ∧
    (validateFileSizeCall m limit resp).1 = m ∧
    (isExtensionEditableCall (isExtensionEditableCall m e).1 e).2 =
      (isExtensionEditableCall m e).2 ∧
    (isExtensionViewOnlyCall (isExtensionViewOnlyCall m e).1 e).2 =
      (isExtensionViewOnlyCall m e).2 ∧
    (isExtensionLossEditableCall (isExtensionLossEditableCall m e).1 e).2 =
      (isExtensionLossEditableCall m e).2 ∧
    (isExtensionOOXMLConvertableCall (isExtensionOOXMLConvertableCall m e).1 e).2 =
      (isExtensionOOXMLConvertableCall m e).2 ∧
    (isExtensionSupportedCall (isExtensionSupportedCall m e).1 e).2 =
      (isExtensionSupportedCall m e).2 ∧
    (getFileTypeCall (getFileTypeCall m e).1 e).2 = (getFileTypeCall m e).2 ∧
    (escapeFilenameCall (escapeFilenameCall m e).1 e).2 = (escapeFilenameCall m e).2 ∧
    (getFilenameWithoutExtensionCall (getFilenameWithoutExtensionCall m e).1 e).2 =
      (getFilenameWithoutExtensionCall m e).2 ∧
    (getFileExtCall (getFileExtCall m e).1 e).2 = (getFileExtCall m e).2 ∧
    (validateFileSizeCall (validateFileSizeCall m limit resp).1 limit resp).2 =
      (validateFileSizeCall m limit resp).2 :=
  ⟨rfl, rfl, rfl, rfl, rfl, rfl, rfl, rfl, rfl, rfl,
   rfl, rfl, rfl, rfl, rfl, rfl, rfl, rfl, rfl, rfl⟩

/-- C1: when the lowercased extension is a key of at least one of the four
maps, `GetFileType` returns a pair of some type among "word", "cell",
"slide" and a nil error; when it is a key of none of them, it returns the
empty string and `ErrOnlyofficeExtensionNotSupported`. -/
theorem getFileType_classification (e : Str) :
    ((toLower e ∈ OnlyofficeEditableExtensions.map Prod.fst ∨
      toLower e ∈ OnlyofficeOOXMLEditableExtensions.map Prod.fst ∨
      toLower e ∈ OnlyofficeDataLossEditableExtensions.map Prod.fst ∨
      toLower e ∈ OnlyofficeViewOnlyExtensions.map Prod.fst) →
      ∃ t, GetFileType e = (t, none) ∧ (t = "word" ∨ t = "cell" ∨ t = "slide")) ∧
    (¬ (toLower e ∈ OnlyofficeEditableExtensions.map Prod.fst ∨
      toLower e ∈ OnlyofficeOOXMLEditableExtensions.map Prod.fst ∨
      toLower e ∈ OnlyofficeDataLossEditableExtensions.map Prod.fst ∨
      toLower e ∈ OnlyofficeViewOnlyExtensions.map Prod.fst) →
      GetFileType e = ("", some GoError.extensionNotSupported)) := by
  rcases lookup_atMostOne (toLower e) with
    ⟨h1, h2, h3, h4⟩ | ⟨t, h1, h2, h3, h4⟩ | ⟨t, h1, h2, h3, h4⟩ |
    ⟨t, h1, h2, h3, h4⟩ | ⟨t, h1, h2, h3, h4⟩
  · constructor
    · intro hmem
      exfalso
      rcases hmem with hm | hm | hm | hm
      · rw [← lookup_isSome_iff, h1] at hm; simp at hm
      · rw [← lookup_isSome_iff, h2] at hm; simp at hm
      · rw [← lookup_isSome_iff, h3] at hm; simp at hm
      · rw [← lookup_isSome_iff, h4] at hm; simp at hm
    · intro _
      simp [GetFileType, getFileTypeT, globalMaps, h1, h2, h3, h4]
  · constructor
    · intro _
      refine ⟨t, by simp [GetFileType, getFileTypeT, globalMaps, h1, h2, h3, h4], ?_⟩
      have hv := editable_values _ (lookup_some_mem h1)
      simpa [OnlyofficeWordType, OnlyofficeCellType, OnlyofficeSlideType] using hv
    · intro hn
      exact absurd (Or.inl (lookup_isSome_iff.mp (by simp [h1]))) hn
  · constructor
    · intro _
      refine ⟨t, by simp [GetFileType, getFileTypeT, globalMaps, h1, h2, h3, h4], ?_⟩
      have hv := ooxml_values _ (lookup_some_mem h2)
      simpa [OnlyofficeWordType, OnlyofficeCellType, OnlyofficeSlideType] using hv
    · intro hn
      exact absurd (Or.inr (Or.inl (lookup_isSome_iff.mp (by simp [h2])))) hn
  · constructor
    · intro _
      refine ⟨t, by simp [GetFileType, getFileTypeT, globalMaps, h1, h2, h3, h4], ?_⟩
      have hv := dataLoss_values _ (lookup_some_mem h3)
      simpa [OnlyofficeWordType, OnlyofficeCellType, OnlyofficeSlideType] using hv
    · intro hn
      exact absurd (Or.inr (Or.inr (Or.inl (lookup_isSome_iff.mp (by simp [h3]))))) hn
  · constructor
    · intro _
      refine ⟨t, by simp [GetFileType, getFileTypeT, globalMaps, h1, h2, h3, h4], ?_⟩
      have hv := viewOnly_values _ (lookup_some_mem h4)
      simpa [OnlyofficeWordType, OnlyofficeCellType, OnlyofficeSlideType] using hv
    · intro hn
      exact absurd (Or.inr (Or.inr (Or.inr (lookup_isSome_iff.mp (by simp [h4]))))) hn

/-- Witness for C1: `docx` is classified as a word document with a nil
error, `zip` yields the not-supported error. -/
theorem getFileType_classification_witness :
    (∃ t, GetFileType (s2l "docx") = (t, none) ∧
      (t = "word" ∨ t = "cell" ∨ t = "slide")) ∧
    GetFileType (s2l "zip") = ("", some GoError.extensionNotSupported) :=
  ⟨(getFileType_classification (s2l "docx")).1 (by decide),
   (getFileType_classification (s2l "zip")).2 (by decide)⟩

/-- C10: the four extension maps are pairwise key-disjoint; hence every
supported extension satisfies exactly one of the four per-map predicates,
and `GetFileType` returns the same pair when the maps are consulted in the
reverse order. -/
theorem extension_maps_disjoint :
    (disjointMaps OnlyofficeEditableExtensions OnlyofficeOOXMLEditableExtensions = true ∧
      disjointMaps OnlyofficeEditableExtensions OnlyofficeDataLossEditableExtensions = true ∧
      disjointMaps OnlyofficeEditableExtensions OnlyofficeViewOnlyExtensions = true ∧
      disjointMaps OnlyofficeOOXMLEditableExtensions OnlyofficeDataLossEditableExtensions = true ∧
      disjointMaps OnlyofficeOOXMLEditableExtensions OnlyofficeViewOnlyExtensions = true ∧
      disjointMaps OnlyofficeDataLossEditableExtensions OnlyofficeViewOnlyExtensions = true) ∧
    (∀ e, IsExtensionSupported e = true →
      (IsExtensionEditable e).toNat + (IsExtensionLossEditable e).toNat +
        (IsExtensionOOXMLConvertable e).toNat + (IsExtensionViewOnly e).toNat = 1) ∧
    (∀ e, GetFileType e = getFileTypeRevT globalMaps e) := by
  refine ⟨⟨disj_ed_ooxml, disj_ed_loss, disj_ed_view, disj_ooxml_loss,
    disj_ooxml_view, disj_loss_view⟩, ?_, ?_⟩
  · intro e hsupp
    rcases lookup_atMostOne (toLower e) with
      ⟨h1, h2, h3, h4⟩ | ⟨t, h1, h2, h3, h4⟩ | ⟨t, h1, h2, h3, h4⟩ |
      ⟨t, h1, h2, h3, h4⟩ | ⟨t, h1, h2, h3, h4⟩
    · exfalso
      simp [IsExtensionSupported, isExtensionSupportedT, globalMaps,
        h1, h2, h3, h4] at hsupp
    all_goals
      simp [IsExtensionEditable, isExtensionEditableT, IsExtensionViewOnly,
        isExtensionViewOnlyT, IsExtensionLossEditable, isExtensionLossEditableT,
        IsExtensionOOXMLConvertable, isExtensionOOXMLConvertableT, globalMaps,
        h1, h2, h3, h4]
  · intro e
    rcases lookup_atMostOne (toLower e) with
      ⟨h1, h2, h3, h4⟩ | ⟨t, h1, h2, h3, h4⟩ | ⟨t, h1, h2, h3, h4⟩ |
      ⟨t, h1, h2, h3, h4⟩ | ⟨t, h1, h2, h3, h4⟩ <;>
    simp [GetFileType, getFileTypeT, getFileTypeRevT, globalMaps, h1, h2, h3, h4]

/-- Witness for C10: `docx` is supported and satisfies exactly one of the
four per-map predicates. -/
theorem extension_maps_disjoint_witness :
    (IsExtensionEditable (s2l "docx")).toNat +
      (IsExtensionLossEditable (s2l "docx")).toNat +
      (IsExtensionOOXMLConvertable (s2l "docx")).toNat +
      (IsExtensionViewOnly (s2l "docx")).toNat = 1 :=
  extension_maps_disjoint.2.1 (s2l "docx") (by decide)

/-- C6: with the HEAD response as input, `ValidateFileSize` returns a nil
error exactly when the Content-Length header parses as a base-10 64-bit
integer that is at most the limit; a value strictly above the limit, or a
missing, empty, or unparseable header, yields `ErrInvalidContentLength`,
and a value exactly equal to the limit passes. -/
theorem validateFileSize_contentLength (limit : Int) (resp : HeadResponse) :
    (ValidateFileSize limit resp = none ↔
      ∃ v, goParseInt resp.contentLength = some v ∧ v ≤ limit) ∧
    (∀ v, goParseInt resp.contentLength = some v → v ≤ limit →
      ValidateFileSize limit resp = none) ∧
    (∀ v, goParseInt resp.contentLength = some v → limit < v →
      ValidateFileSize limit resp = some GoError.invalidContentLength) ∧
    (goParseInt resp.contentLength = none →
      ValidateFileSize limit resp = some GoError.invalidContentLength) := by
  cases h : goParseInt resp.contentLength with
  | none => simp [ValidateFileSize, h]
  | some v =>
    by_cases hle : v ≤ limit
    · simp [ValidateFileSize, h, not_lt.mpr hle, hle]
    · simp [ValidateFileSize, h, lt_of_not_le hle, hle]

/-- Witness for C6: a Content-Length equal to the limit passes, one above
it and a malformed one are rejected. -/
theorem validateFileSize_contentLength_witness :
    ValidateFileSize 5 ⟨s2l "5"⟩ = none ∧
    ValidateFileSize 5 ⟨s2l "6"⟩ = some GoError.invalidContentLength ∧
    ValidateFileSize 5 ⟨s2l "abc"⟩ = some GoError.invalidContentLength :=
  ⟨(validateFileSize_contentLength 5 ⟨s2l "5"⟩).2.1 5 (by decide) (by decide),
   (validateFileSize_contentLength 5 ⟨s2l "6"⟩).2.2.1 6 (by decide) (by decide),
   (validateFileSize_contentLength 5 ⟨s2l "abc"⟩).2.2.2 (by decide)⟩

theorem extAux_spec (l : Str) : ∀ acc : Str,
    extAux l acc = [] ∨
    ∃ l₁ l₂, l = l₁ ++ dotChar :: l₂ ∧
      (∀ c ∈ l₁, c ≠ dotChar ∧ c ≠ slashChar) ∧
      extAux l acc = dotChar :: (l₁.reverse ++ acc) := by
  induction l with
  | nil => intro acc; left; rfl
  | cons c rest ih =>
    intro acc
    by_cases hs : c = slashChar
    · left
      simp [extAux, hs]
    · by_cases hd : c = dotChar
      · right
        exact ⟨[], rest, by simp [hd], by simp,
          by simp [extAux, hs, hd, dotChar, slashChar]⟩
      · rcases ih (c :: acc) with h | ⟨l₁, l₂, hl, hfree, hres⟩
        · left
          simp [extAux, hs, hd, h]
        · right
          refine ⟨c :: l₁, l₂, by simp [hl], ?_, ?_⟩
          · intro x hx
            rcases List.mem_cons.mp hx with rfl | hx
            · exact ⟨hd, hs⟩
            · exact hfree x hx
          · simp [extAux, hs, hd, hres]

theorem isPrefixOf_self_append (l r : Str) : List.isPrefixOf l (l ++ r) = true := by
  induction l with
  | nil =>
    cases r with
    | nil => rfl
    | cons b bs => rfl
  | cons c cs ih =>
    show (c == c && List.isPrefixOf cs (cs ++ r)) = true
    simp [ih]

theorem isSuffixOf_append_self (pre suff : Str) :
    List.isSuffixOf suff (pre ++ suff) = true := by
  simp only [List.isSuffixOf, List.reverse_append]
  exact isPrefixOf_self_append _ _

theorem trimSuffix_append (pre suff : Str) : trimSuffix (pre ++ suff) suff = pre := by
  rw [trimSuffix, if_pos (isSuffixOf_append_self pre suff), List.length_append,
    Nat.add_sub_cancel]
  exact List.take_left _ _

theorem removeAllChar_of_not_mem (l : Str) (a : Nat) (h : ∀ c ∈ l, c ≠ a) :
    removeAllChar l a = l := by
  rw [removeAllChar]
  exact List.filter_eq_self.mpr fun c hc => by simp [h c hc]

/-- C7: whenever the final path element of a filename contains a dot (the
`filepath.Ext` of the filename is nonempty), stripping the extension with
`GetFilenameWithoutExtension` and gluing back a dot and `GetFileExt`
reconstructs the filename. -/
theorem filename_ext_roundtrip (f : Str) (h : filepathExt f ≠ []) :
    GetFilenameWithoutExtension f ++ dotChar :: GetFileExt f = f := by
  rcases extAux_spec f.reverse [] with he | ⟨l₁, l₂, hl, hfree, hres⟩
  · exact absurd he h
  · have hext : filepathExt f = dotChar :: l₁.reverse := by
      rw [filepathExt, hres, List.append_nil]
    have hf : f = l₂.reverse ++ dotChar :: l₁.reverse := by
      have h2 := congrArg List.reverse hl
      rw [List.reverse_reverse] at h2
      rw [h2]
      simp [List.reverse_append]
    have hwo : GetFilenameWithoutExtension f = l₂.reverse := by
      rw [GetFilenameWithoutExtension, hext, hf]
      exact trimSuffix_append _ _
    have hge : GetFileExt f = l₁.reverse := by
      rw [GetFileExt, hext]
      have hhead : removeAllChar (dotChar :: l₁.reverse) dotChar
          = removeAllChar l₁.reverse dotChar := by
        simp [removeAllChar]
      rw [hhead]
      exact removeAllChar_of_not_mem _ _ fun c hc =>
        (hfree c (List.mem_reverse.mp hc)).1
    rw [hwo, hge, ← hf]

/-- Witness for C7: reconstructing `report.docx` from its stem and its
extension. -/
theorem filename_ext_roundtrip_witness :
    GetFilenameWithoutExtension (s2l "report.docx") ++
      dotChar :: GetFileExt (s2l "report.docx") = s2l "report.docx" :=
  filename_ext_roundtrip (s2l "report.docx") (by decide)

example : GetFileType (s2l "docx") = ("word", none) := by decide
example : GetFileType (s2l "DOCX") = ("word", none) := by decide
example : GetFileType (s2l "zip") = ("", some GoError.extensionNotSupported) := by decide
example : IsExtensionSupported (s2l "Pdf") = true := by decide
example : EscapeFilename (s2l "a/b\\c") = s2l "a:b:c" := by decide
example : filepathExt (s2l "dir/a.tar.gz") = s2l ".gz" := by decide
example : filepathExt (s2l "dir.d/name") = s2l "" := by decide
example : GetFilenameWithoutExtension (s2l "a.docx") = s2l "a" := by decide
example : GetFileExt (s2l "a.docx") = s2l "docx" := by decide
example : goParseInt (s2l "42") = some 42 := by decide
example : goParseInt (s2l "-7") = some (-7) := by decide
example : goParseInt (s2l "") = none := by decide
example : goParseInt (s2l "1x") = none := by decide
example : ValidateFileSize 5 ⟨s2l "5"⟩ = none := by decide
example : ValidateFileSize 5 ⟨s2l "6"⟩ = some GoError.invalidContentLength := by decide
